import Mathlib

/-!
Verification of the taxonomy core (foxbox device-abstraction layer).

Shallow embedding of the code in `src/api/selector.rs`, `src/api/native.rs`
and `src/io/range.rs`, together with definitions modelled from the spec for
the parts of the repository (io/types.rs, io/parse.rs, api/services.rs,
adapters/manager.rs, misc/util.rs) that are not available under `src/`.
-/

namespace Taxonomy

/-- Modelled from the spec: `Value` lives in `io/types.rs`, which is not under
`src/`. Per the spec (§3, §4.3) a value has a *kind*; values of distinct kinds
are incomparable, values of one kind are ordered by their payload. We model a
value as a kind index together with an integer payload. -/
structure Value where
  kind : Nat
  payload : Int
deriving DecidableEq, Repr

/-- Modelled from the spec: the partial comparison underlying Rust's
`PartialOrd` for `Value` (in the missing `io/types.rs`): values of different
kinds compare to `none`; values of one kind compare by payload. -/
def Value.pcmp (a b : Value) : Option Ordering :=
  if a.kind = b.kind then
    if a.payload < b.payload then some Ordering.lt
    else if a.payload = b.payload then some Ordering.eq
    else some Ordering.gt
  else none

/-- Rust's `a <= b` for a `PartialOrd` type: true iff `pcmp` yields `lt` or `eq`. -/
def pleB (a b : Value) : Bool :=
  match a.pcmp b with
  | some Ordering.lt => true
  | some Ordering.eq => true
  | _ => false

/-- Rust's `a >= b` for a `PartialOrd` type: true iff `pcmp` yields `gt` or `eq`. -/
def pgeB (a b : Value) : Bool :=
  match a.pcmp b with
  | some Ordering.gt => true
  | some Ordering.eq => true
  | _ => false

/-- Rust's `a < b` for a `PartialOrd` type: true iff `pcmp` yields `lt`. -/
def pltB (a b : Value) : Bool := a.pcmp b == some Ordering.lt

/-- The specification-side partial order on values: same kind and payload `≤`. -/
def vle (a b : Value) : Prop := a.kind = b.kind ∧ a.payload ≤ b.payload

/-- The specification-side strict partial order on values. -/
def vlt (a b : Value) : Prop := a.kind = b.kind ∧ a.payload < b.payload

instance (a b : Value) : Decidable (vle a b) := by
  unfold vle
  infer_instance

instance (a b : Value) : Decidable (vlt a b) := by
  unfold vlt
  infer_instance

/-- Embedded from `src/io/range.rs`, lines 10-57: the `Range` enum. -/
inductive Range
  | Leq : Value → Range
  | Geq : Value → Range
  | BetweenEq : Value → Value → Range
  | OutOfStrict : Value → Value → Range
  | Eq : Value → Range
deriving DecidableEq, Repr

/-- Embedded from `src/io/range.rs`, lines 61-70: `Range::contains`. -/
def Range.contains (r : Range) (value : Value) : Bool :=
  match r with
  | .Leq max => pleB value max
  | .Geq min => pgeB value min
  | .BetweenEq min max => pleB min value && pleB value max
  | .OutOfStrict min max => pltB value min || pltB max value
  | .Eq val => value == val

/-- The operand values of a range, used to speak about the range's kind. -/
def Range.operands : Range → List Value
  | .Leq x => [x]
  | .Geq x => [x]
  | .BetweenEq min max => [min, max]
  | .OutOfStrict min max => [min, max]
  | .Eq x => [x]

/-- Modelled from the spec: `Exactly<T>` lives in `api/services.rs`, which is
not under `src/`. Per the spec (§3) it is the tri-state constraint
`Always | Never | Exactly(v)`. -/
inductive Exactly (T : Type)
  | Always : Exactly T
  | Never : Exactly T
  | Exactly : T → Exactly T
deriving DecidableEq, Repr

/-- Modelled from the spec (§4.2): constraint matching — `Always` matches all,
`Never` matches none, `Exactly(x)` matches iff the candidate equals `x`.
The implementation lives in the missing `api/services.rs`. -/
def exactlyMatches {T : Type} [DecidableEq T] : Exactly T → T → Bool
  | .Always, _ => true
  | .Never, _ => false
  | .Exactly x, v => v = x

/-- Configuration errors (spec §7): conflicting `Exactly` composition. -/
inductive ConfigError
  | conflict
deriving DecidableEq, Repr

/-- Modelled from the spec (§3, §9): the `and` combinator on `Exactly<T>`
(implementation in the missing `api/services.rs`): `Always` is the identity,
`Never` absorbs, and composing two `Exactly` constraints with different
values fails with a conflict configuration error. -/
def exactlyAnd {T : Type} [DecidableEq T] :
    Exactly T → Exactly T → Except ConfigError (Exactly T)
  | .Always, other => .ok other
  | x, .Always => .ok x
  | .Never, _ => .ok .Never
  | _, .Never => .ok .Never
  | .Exactly v1, .Exactly v2 =>
      if v1 = v2 then .ok (.Exactly v1) else .error .conflict

/-- A feature of the catalog (spec §3); ids and tags are interned strings. -/
structure Feature where
  id : String
  tags : List String
  implements : String
deriving DecidableEq, Repr

/-- A service of the catalog (spec §3). -/
structure Service where
  id : String
  tags : List String
  features : List Feature
deriving DecidableEq, Repr

/-- Embedded from `src/api/selector.rs`, lines 215-233: the fields of
`SimpleFeatureSelector = BaseFeatureSelector<()>` (id, tags, implements). -/
structure SimpleFeatureSelector where
  id : Exactly String
  tags : List String
  implements : Exactly String
deriving DecidableEq, Repr

/-- Embedded from `src/api/selector.rs`, lines 73-86: the fields of
`ServiceSelector` (id, tags, nested feature selectors). -/
structure ServiceSelector where
  id : Exactly String
  tags : List String
  features : List SimpleFeatureSelector
deriving DecidableEq, Repr

/-- Modelled from the spec (§4.2): feature-selector matching — id constraint,
required tag subset, capability constraint, all ANDed. The matching engine is
in the missing `adapters/` backend; the selector fields are those of
`src/api/selector.rs`. -/
def matchesFeature (sel : SimpleFeatureSelector) (f : Feature) : Bool :=
  exactlyMatches sel.id f.id && sel.tags.all (fun t => f.tags.contains t) &&
    exactlyMatches sel.implements f.implements

/-- Modelled from the spec (§4.2): service-selector matching — id constraint,
required tag subset, and every nested feature selector satisfied by at least
one feature of the service. -/
def matchesService (sel : ServiceSelector) (s : Service) : Bool :=
  exactlyMatches sel.id s.id && sel.tags.all (fun t => s.tags.contains t) &&
    sel.features.all (fun fs => s.features.any (fun f => matchesFeature fs f))

/-- A service matches a selector list iff it matches at least one selector
(union / logical OR across the list, spec §4.1). -/
def matchesAny (sels : List ServiceSelector) (s : Service) : Bool :=
  sels.any (fun sel => matchesService sel s)

/-- Insert every tag of `tags` into the tag set `l` (set-insert: a tag already
present is not duplicated), mirroring `HashSet::insert` semantics. -/
def addAllTags (tags : List String) (l : List String) : List String :=
  tags.foldl (fun acc t => acc.insert t) l

/-- Modelled from the spec (§4.1): `add_service_tags` — the public entry point
`API::add_service_tags` (`src/api/native.rs`, lines 176-178) delegates to
`AdapterManager::add_service_tags`, which is not under `src/`. It resolves the
selector union to the matched services, adds every tag to each matched
service (idempotently), and returns the count of matched services. The state
is the registry's service list. The per-service update: a matched service
receives every tag, an unmatched one is untouched. -/
def updTags (sels : List ServiceSelector) (tags : List String) (s : Service) :
    Service :=
  if matchesAny sels s then { s with tags := addAllTags tags s.tags } else s

/-- Modelled from the spec (§4.1): `add_service_tags` applies `updTags` to
every service of the registry and returns the count of matched services. -/
def add_service_tags (sels : List ServiceSelector) (tags : List String)
    (st : List Service) : List Service × Nat :=
  (st.map (updTags sels tags), st.countP (fun s => matchesAny sels s))

/-- Modelled from the spec (§4.1): `get_services` — union across the selector
list, registry order preserved (the public entry point `API::get_services`,
`src/api/native.rs` lines 119-121, delegates to the missing manager). -/
def get_services (sels : List ServiceSelector) (st : List Service) : List Service :=
  st.filter (fun s => matchesAny sels s)

/-- Embedded from `src/api/selector.rs`, lines 124-128: `ServiceSelector::new`
is `Self::default()`; the derived default has every field at its default
(`Exactly::default() = Always` per the missing `api/services.rs`, empty tag
set, empty nested list). -/
def ServiceSelector.new : ServiceSelector :=
  { id := Exactly.Always, tags := [], features := [] }

/-- A JSON value, modelling the `JSON` type of the missing `io/parse.rs`. -/
inductive JSON
  | str : String → JSON
  | num : Int → JSON
  | bool : Bool → JSON
  | arr : List JSON → JSON
  | obj : List (String × JSON) → JSON

/-- Parse errors of the missing `io/parse.rs`, restricted to the variants the
selector parsers use (`ParseError::EmptyObject` appears in the doc comments of
`src/api/selector.rs`). -/
inductive ParseError
  | emptyObject
  | typeError (field : String)
deriving DecidableEq, Repr

/-- Field lookup on a JSON object. -/
def JSON.get (source : JSON) (field : String) : Option JSON :=
  match source with
  | .obj fields => fields.lookup field
  | _ => none

/-- Modelled from the spec: `Exactly::take_opt` of the missing `io/parse.rs`,
at an id-valued field — `none` when the field is absent, `Exactly(id)` when it
is a string, a parse error otherwise. -/
def takeIdOpt (source : JSON) (field : String) :
    Option (Except ParseError (Exactly String)) :=
  match source.get field with
  | none => none
  | some (.str s) => some (.ok (Exactly.Exactly s))
  | some _ => some (.error (.typeError field))

/-- Modelled from the spec: `Id::take_vec_opt` of the missing `io/parse.rs` —
`none` when the field is absent, the list of id strings when it is an array of
strings, a parse error otherwise. -/
def takeIdVecOpt (source : JSON) (field : String) :
    Option (Except ParseError (List String)) :=
  match source.get field with
  | none => none
  | some (.arr items) =>
      some (items.mapM fun j =>
        match j with
        | .str s => Except.ok s
        | _ => Except.error (ParseError.typeError field))
  | some _ => some (.error (.typeError field))

/-- Embedded from `src/api/selector.rs`, lines 262-289:
`SimpleFeatureSelector::parse`. Each absent field falls back to its default;
no emptiness check is performed. -/
def SimpleFeatureSelector.parse (source : JSON) :
    Except ParseError SimpleFeatureSelector := do
  let id ← match takeIdOpt source "id" with
    | none => Except.ok Exactly.Always
    | some r => r
  let tags ← match takeIdVecOpt source "tags" with
    | none => Except.ok []
    | some r => r
  let implements ← match takeIdOpt source "implements" with
    | none => Except.ok Exactly.Always
    | some r => r
  Except.ok { id := id, tags := tags, implements := implements }

/-- Embedded from `src/api/selector.rs`, lines 99-121: `ServiceSelector::parse`.
Each absent field falls back to its default; no emptiness check is performed. -/
def ServiceSelector.parse (source : JSON) : Except ParseError ServiceSelector := do
  let id ← match takeIdOpt source "id" with
    | none => Except.ok Exactly.Always
    | some r => r
  let tags ← match takeIdVecOpt source "tags" with
    | none => Except.ok []
    | some r => r
  let features ← match source.get "features" with
    | none => Except.ok []
    | some (.arr items) => items.mapM SimpleFeatureSelector.parse
    | some _ => Except.error (ParseError.typeError "features")
  Except.ok { id := id, tags := tags, features := features }

/-- Embedded from `src/api/selector.rs`, lines 155-162: `ServiceSelector::and`
on the embedded fields. The `id` composition uses the tri-state `and`; a
conflict error propagates. -/
def ServiceSelector.andSel (self other : ServiceSelector) :
    Except ConfigError ServiceSelector := do
  let id ← exactlyAnd self.id other.id
  Except.ok { id := id, tags := addAllTags other.tags self.tags,
              features := self.features ++ other.features }

/-- A selector value together with its allocation address, modelling Rust's
heap placement for the purpose of `ptr_eq`. -/
structure ServiceSelectorRef where
  addr : Nat
  data : ServiceSelector
deriving DecidableEq, Repr

/-- Modelled from the spec: `ptr_eq` of the missing `misc/util.rs`, used by
`impl PartialEq for ServiceSelector` (`src/api/selector.rs`, lines 88-93) —
two references are equal iff they have the same address. -/
def ptrEq (a b : ServiceSelectorRef) : Bool := a.addr == b.addr

/-- Cloning a selector copies the data to a fresh address. -/
def ServiceSelectorRef.cloneAt (fresh : Nat) (s : ServiceSelectorRef) :
    ServiceSelectorRef :=
  { addr := fresh, data := s.data }

/-- An operation observed by the watch dispatcher (spec §4.4): a catalog
change (feature added or removed) or an adapter value push. -/
inductive WatchOp
  | addFeature : Feature → WatchOp
  | removeFeature : String → WatchOp
  | push : String → Value → WatchOp
deriving DecidableEq, Repr

/-- Events delivered to one subscription entry (spec §4.4). -/
inductive WatchEvent
  | added : String → WatchEvent
  | removed : String → WatchEvent
  | value : String → Value → WatchEvent
deriving DecidableEq, Repr

/-- Whether an event is a `Value` event. -/
def WatchEvent.isValue : WatchEvent → Bool
  | .value _ _ => true
  | _ => false

/-- The per-entry dispatcher state: the current interest set of matched
feature ids (spec §3, §4.4). -/
structure WatchState where
  interest : List String
deriving DecidableEq, Repr

/-- Modelled from the spec (§4.4): one dispatch step for one subscription
entry `(selector, Exactly<Range>)` (`API::register_watch`, `src/api/native.rs`
lines 452-484, delegates to the missing manager). On a catalog change the
match is recomputed: unmatched→matched emits `Added`, matched→unmatched emits
`Removed`. On a value push for a feature in the interest set, the range
constraint decides delivery: `Never` drops, `Always` delivers, `Exactly r`
delivers iff `r.contains value`. -/
def dispatchStep (sel : SimpleFeatureSelector) (c : Exactly Range)
    (st : WatchState) : WatchOp → WatchState × List WatchEvent
  | .addFeature f =>
      if matchesFeature sel f && !(st.interest.contains f.id) then
        ({ interest := f.id :: st.interest }, [.added f.id])
      else (st, [])
  | .removeFeature i =>
      if st.interest.contains i then
        ({ interest := st.interest.erase i }, [.removed i])
      else (st, [])
  | .push i v =>
      if st.interest.contains i then
        match c with
        | .Never => (st, [])
        | .Always => (st, [.value i v])
        | .Exactly r => (st, if r.contains v then [.value i v] else [])
      else (st, [])

/-- Run the dispatcher over a sequence of observed operations, concatenating
the per-subscription FIFO event stream (spec §4.4). -/
def dispatchRun (sel : SimpleFeatureSelector) (c : Exactly Range)
    (st : WatchState) : List WatchOp → WatchState × List WatchEvent
  | [] => (st, [])
  | op :: ops =>
      let r1 := dispatchStep sel c st op
      let r2 := dispatchRun sel c r1.1 ops
      (r2.1, r1.2 ++ r2.2)

/-- No event of the stream is a `Value` event. -/
def noValueEvents (l : List WatchEvent) : Bool :=
  l.all (fun e => !e.isValue)

end Taxonomy

namespace Taxonomy

theorem pleB_iff (a b : Value) : pleB a b = true ↔ vle a b := by
  obtain ⟨ka, pa⟩ := a
  obtain ⟨kb, pb⟩ := b
  unfold pleB Value.pcmp vle
  by_cases hk : ka = kb
  · subst hk
    by_cases hlt : pa < pb <;> by_cases heq : pa = pb <;>
      simp [hlt, heq] <;> (first | omega | decide)
  · simp [hk]

theorem pgeB_iff (a b : Value) : pgeB a b = true ↔ vle b a := by
  obtain ⟨ka, pa⟩ := a
  obtain ⟨kb, pb⟩ := b
  unfold pgeB Value.pcmp vle
  by_cases hk : ka = kb
  · subst hk
    by_cases hlt : pa < pb <;> by_cases heq : pa = pb <;>
      simp [hlt, heq] <;> (first | omega | decide)
  · have hk2 : ¬ kb = ka := fun h => hk h.symm
    simp [hk, hk2]

theorem pltB_iff (a b : Value) : pltB a b = true ↔ vlt a b := by
  obtain ⟨ka, pa⟩ := a
  obtain ⟨kb, pb⟩ := b
  unfold pltB Value.pcmp vlt
  by_cases hk : ka = kb
  · subst hk
    by_cases hlt : pa < pb <;> by_cases heq : pa = pb <;>
      simp [hlt, heq] <;> (first | omega | decide)
  · simp [hk]

theorem pltB_eq_not_pleB (a b : Value) (hk : a.kind = b.kind) :
    pltB a b = !(pleB b a) := by
  unfold pltB pleB Value.pcmp
  have hk2 : b.kind = a.kind := hk.symm
  rw [if_pos hk, if_pos hk2]
  by_cases hlt : a.payload < b.payload
  · have h1 : ¬ b.payload < a.payload := by omega
    have h2 : ¬ b.payload = a.payload := by omega
    simp [hlt, h1, h2]
    all_goals decide
  · by_cases heq : a.payload = b.payload
    · simp [hlt, heq]
      all_goals decide
    · have h1 : b.payload < a.payload := by omega
      simp [hlt, heq, h1]
      all_goals decide

/-- C2: `Range::contains` returns true exactly as specified per variant:
`Leq(x)` iff `v ≤ x`, `Geq(x)` iff `v ≥ x`, `BetweenEq{min,max}` iff
`min ≤ v ∧ v ≤ max`, `OutOfStrict{min,max}` iff `v < min ∨ max < v`, and
`Eq(x)` iff `v = x`, the comparisons being the partial order on values. -/
theorem range_contains_characterization (v x min max : Value) :
    ((Range.Leq x).contains v = true ↔ vle v x) ∧
    ((Range.Geq x).contains v = true ↔ vle x v) ∧
    ((Range.BetweenEq min max).contains v = true ↔ (vle min v ∧ vle v max)) ∧
    ((Range.OutOfStrict min max).contains v = true ↔ (vlt v min ∨ vlt max v)) ∧
    ((Range.Eq x).contains v = true ↔ v = x) := by
  refine ⟨pleB_iff v x, pgeB_iff v x, ?_, ?_, ?_⟩
  · simp [Range.contains, Bool.and_eq_true, pleB_iff]
  · simp [Range.contains, Bool.or_eq_true, pltB_iff]
  · simp [Range.contains]

/-- C3: for every range and every value whose kind is incomparable with the
range's operand kinds, `Range::contains` returns false (it is total and
boolean by construction). -/
theorem contains_incomparable_kinds (r : Range) (v : Value)
    (h : ∀ o ∈ r.operands, v.kind ≠ o.kind) : r.contains v = false := by
  cases r with
  | Leq x =>
    have hx := h x (by simp [Range.operands])
    cases hb : pleB v x
    · simp [Range.contains, hb]
    · exact absurd ((pleB_iff v x).mp hb).1 hx
  | Geq x =>
    have hx := h x (by simp [Range.operands])
    cases hb : pgeB v x
    · simp [Range.contains, hb]
    · exact absurd ((pgeB_iff v x).mp hb).1 (fun hh => hx hh.symm)
  | BetweenEq lo hi =>
    have hlo := h lo (by simp [Range.operands])
    cases hb : pleB lo v
    · simp [Range.contains, hb]
    · exact absurd ((pleB_iff lo v).mp hb).1 (fun hh => hlo hh.symm)
  | OutOfStrict lo hi =>
    have hlo := h lo (by simp [Range.operands])
    have hhi := h hi (by simp [Range.operands])
    cases hb1 : pltB v lo
    · cases hb2 : pltB hi v
      · simp [Range.contains, hb1, hb2]
      · exact absurd ((pltB_iff hi v).mp hb2).1 (fun hh => hhi hh.symm)
    · exact absurd ((pltB_iff v lo).mp hb1).1 hlo
  | Eq x =>
    have hx := h x (by simp [Range.operands])
    have hne : v ≠ x := fun he => hx (by rw [he])
    simp [Range.contains, hne]

/-- Witness for `contains_incomparable_kinds` at `Leq` over kind 0 and a value
of kind 1. -/
theorem contains_incomparable_kinds_witness :
    (∀ o ∈ (Range.Leq (Value.mk 0 5)).operands, (Value.mk 1 5).kind ≠ o.kind) ∧
    (Range.Leq (Value.mk 0 5)).contains (Value.mk 1 5) = false :=
  ⟨by decide, contains_incomparable_kinds _ _ (by decide)⟩

/-- C4: `BetweenEq{min,max}` with inverted bounds (`max < min`) matches no
value at all. -/
theorem betweenEq_inverted_bounds_never_match (min max v : Value)
    (h : vlt max min) : (Range.BetweenEq min max).contains v = false := by
  cases hb1 : pleB min v
  · simp [Range.contains, hb1]
  · cases hb2 : pleB v max
    · simp [Range.contains, hb1, hb2]
    · exfalso
      obtain ⟨hk1, hp1⟩ := (pleB_iff min v).mp hb1
      obtain ⟨hk2, hp2⟩ := (pleB_iff v max).mp hb2
      obtain ⟨hk, hp⟩ := h
      omega

/-- Witness for `betweenEq_inverted_bounds_never_match` at
`BetweenEq{min:10, max:5}` and `v = 7`. -/
theorem betweenEq_inverted_bounds_never_match_witness :
    vlt (Value.mk 0 5) (Value.mk 0 10) ∧
    (Range.BetweenEq (Value.mk 0 10) (Value.mk 0 5)).contains (Value.mk 0 7) = false :=
  ⟨by decide, betweenEq_inverted_bounds_never_match _ _ _ (by decide)⟩

/-- C5: over values comparable with both bounds, `OutOfStrict{min,max}` is
the complement of the inclusive `BetweenEq{min,max}`. -/
theorem outOfStrict_complements_betweenEq (min max v : Value)
    (h1 : v.kind = min.kind) (h2 : v.kind = max.kind) :
    (Range.OutOfStrict min max).contains v =
      !((Range.BetweenEq min max).contains v) := by
  show (pltB v min || pltB max v) = !(pleB min v && pleB v max)
  rw [pltB_eq_not_pleB v min h1, pltB_eq_not_pleB max v h2.symm]
  cases pleB min v <;> cases pleB v max <;> rfl

/-- Witness for `outOfStrict_complements_betweenEq` with bounds 3 and 8 and
value 5, all of kind 0. -/
theorem outOfStrict_complements_betweenEq_witness :
    (Value.mk 0 5).kind = (Value.mk 0 3).kind ∧
    (Value.mk 0 5).kind = (Value.mk 0 8).kind ∧
    (Range.OutOfStrict (Value.mk 0 3) (Value.mk 0 8)).contains (Value.mk 0 5) =
      !((Range.BetweenEq (Value.mk 0 3) (Value.mk 0 8)).contains (Value.mk 0 5)) :=
  ⟨rfl, rfl, outOfStrict_complements_betweenEq _ _ _ rfl rfl⟩

/-- C1: contrary to the claim, parsing the JSON object with no recognized
selector field does NOT fail with an `EmptyObject` error: both
`ServiceSelector::parse` and `SimpleFeatureSelector::parse` accept `\x7b\x7d`
and return the all-default (select-everything) selector. -/
theorem parse_empty_object_accepted :
    ServiceSelector.parse (JSON.obj []) =
      Except.ok { id := Exactly.Always, tags := [], features := [] } ∧
    SimpleFeatureSelector.parse (JSON.obj []) =
      Except.ok { id := Exactly.Always, tags := [], implements := Exactly.Always } :=
  ⟨rfl, rfl⟩

/-- C8: `Always` is the identity of the tri-state `and` combinator, `Never`
absorbs, and composing two distinct `Exactly` constraints fails with a
conflict configuration error. -/
theorem exactly_and_laws {T : Type} [DecidableEq T] (x : Exactly T) (v1 v2 : T) :
    exactlyAnd Exactly.Always x = Except.ok x ∧
    exactlyAnd x Exactly.Always = Except.ok x ∧
    exactlyAnd Exactly.Never x = Except.ok Exactly.Never ∧
    exactlyAnd x Exactly.Never = Except.ok Exactly.Never ∧
    (v1 ≠ v2 →
      exactlyAnd (Exactly.Exactly v1) (Exactly.Exactly v2) =
        Except.error ConfigError.conflict) := by
  refine ⟨?_, ?_, ?_, ?_, ?_⟩
  · cases x <;> rfl
  · cases x <;> rfl
  · cases x <;> rfl
  · cases x <;> rfl
  · intro h
    simp [exactlyAnd, h]

/-- Witness for `exactly_and_laws`: composing `Exactly 1` with `Exactly 2`
over `Nat` yields the conflict error. -/
theorem exactly_and_laws_witness :
    (1 : Nat) ≠ 2 ∧
    exactlyAnd (Exactly.Exactly (1 : Nat)) (Exactly.Exactly 2) =
      Except.error ConfigError.conflict :=
  ⟨by decide, (exactly_and_laws (Exactly.Always) 1 2).2.2.2.2 (by decide)⟩

/-- C9: equality on `ServiceSelector` is pointer identity: two selectors at
distinct addresses are unequal even with identical data (in particular a
clone), and a selector is equal to itself. -/
theorem selector_eq_is_pointer_identity (a1 a2 : Nat) (d1 d2 : ServiceSelector)
    (h : a1 ≠ a2) :
    ptrEq { addr := a1, data := d1 } { addr := a2, data := d2 } = false ∧
    ptrEq { addr := a1, data := d1 } { addr := a1, data := d1 } = true ∧
    ptrEq (ServiceSelectorRef.cloneAt a2 { addr := a1, data := d1 })
      { addr := a1, data := d1 } = false ∧
    (ServiceSelectorRef.cloneAt a2 { addr := a1, data := d1 }).data = d1 := by
  refine ⟨?_, ?_, ?_, rfl⟩
  · simp [ptrEq, h]
  · simp [ptrEq]
  · simp [ptrEq, ServiceSelectorRef.cloneAt]
    exact fun hh => h hh.symm

/-- Witness for `selector_eq_is_pointer_identity` at addresses 0 and 1. -/
theorem selector_eq_is_pointer_identity_witness :
    (0 : Nat) ≠ 1 ∧
    ptrEq { addr := 0, data := ServiceSelector.new }
      { addr := 1, data := ServiceSelector.new } = false :=
  ⟨by decide,
   (selector_eq_is_pointer_identity 0 1 ServiceSelector.new ServiceSelector.new
      (by decide)).1⟩

/-- C10: `ServiceSelector::new` (= `default`) is the select-everything
selector (id `Always`, empty tag set, empty nested list); it matches every
service and is accepted as-is by the public API operations, with no
emptiness validation. -/
theorem new_selector_selects_everything (s : Service) (st : List Service)
    (tags : List String) :
    ServiceSelector.new = { id := Exactly.Always, tags := [], features := [] } ∧
    matchesService ServiceSelector.new s = true ∧
    get_services [ServiceSelector.new] st = st ∧
    (add_service_tags [ServiceSelector.new] tags st).2 = st.length := by
  have hm : ∀ s1 : Service, matchesService ServiceSelector.new s1 = true := by
    intro s1
    simp [matchesService, ServiceSelector.new, exactlyMatches]
  have hma : ∀ s1 : Service, matchesAny [ServiceSelector.new] s1 = true := by
    intro s1
    simp [matchesAny, hm]
  refine ⟨rfl, hm s, ?_, ?_⟩
  · rw [get_services, List.filter_eq_self]
    intro a _
    exact hma a
  · show st.countP (fun s1 => matchesAny [ServiceSelector.new] s1) = st.length
    rw [List.countP_eq_length]
    intro a _
    exact hma a

theorem mem_addAllTags_of_mem (tags l : List String) (x : String)
    (hx : x ∈ l) : x ∈ addAllTags tags l := by
  induction tags generalizing l with
  | nil => exact hx
  | cons t ts ih => exact ih (l.insert t) (List.mem_insert_of_mem hx)

theorem mem_addAllTags_self (tags l : List String) (x : String)
    (hx : x ∈ tags) : x ∈ addAllTags tags l := by
  induction tags generalizing l with
  | nil => cases hx
  | cons t ts ih =>
    rcases List.mem_cons.mp hx with h | h
    · subst h
      exact mem_addAllTags_of_mem ts (l.insert x) x (List.mem_insert_self x l)
    · exact ih (l.insert t) h

theorem addAllTags_eq_of_subset (tags l : List String)
    (h : ∀ t ∈ tags, t ∈ l) : addAllTags tags l = l := by
  induction tags with
  | nil => rfl
  | cons t ts ih =>
    have ht : t ∈ l := h t (List.mem_cons_self t ts)
    show addAllTags ts (l.insert t) = l
    rw [List.insert_of_mem ht]
    exact ih (fun u hu => h u (List.mem_cons_of_mem t hu))

theorem contains_true_iff (l : List String) (x : String) :
    l.contains x = true ↔ x ∈ l :=
  List.elem_iff

theorem matchesService_tags_mono (sel : ServiceSelector) (s : Service)
    (tg : List String) (hsub : ∀ x ∈ s.tags, x ∈ tg)
    (hm : matchesService sel s = true) :
    matchesService sel { s with tags := tg } = true := by
  unfold matchesService at hm ⊢
  simp only [Bool.and_eq_true] at hm ⊢
  obtain ⟨⟨hid, htags⟩, hfeat⟩ := hm
  refine ⟨⟨hid, ?_⟩, hfeat⟩
  rw [List.all_eq_true] at htags ⊢
  intro t ht
  exact (contains_true_iff tg t).mpr
    (hsub t ((contains_true_iff s.tags t).mp (htags t ht)))

theorem matchesAny_updTags (sels : List ServiceSelector) (tags : List String)
    (s : Service) :
    matchesAny sels (updTags sels tags s) = matchesAny sels s := by
  unfold updTags
  cases hm : matchesAny sels s with
  | false => simp [hm]
  | true =>
    simp only [hm, if_true]
    unfold matchesAny at hm ⊢
    rw [List.any_eq_true] at hm ⊢
    obtain ⟨sel, hsel, hms⟩ := hm
    exact ⟨sel, hsel,
      matchesService_tags_mono sel s _
        (fun x hx => mem_addAllTags_of_mem tags s.tags x hx) hms⟩

theorem updTags_idem (sels : List ServiceSelector) (tags : List String)
    (s : Service) :
    updTags sels tags (updTags sels tags s) = updTags sels tags s := by
  cases hm : matchesAny sels s with
  | false =>
    have e : updTags sels tags s = s := by
      unfold updTags
      simp [hm]
    rw [e, e]
  | true =>
    have e : updTags sels tags s = { s with tags := addAllTags tags s.tags } := by
      unfold updTags
      simp [hm]
    have h2 : matchesAny sels { s with tags := addAllTags tags s.tags } = true := by
      rw [← e, matchesAny_updTags, hm]
    have e2 : updTags sels tags { s with tags := addAllTags tags s.tags } =
        { s with tags := addAllTags tags (addAllTags tags s.tags) } := by
      unfold updTags
      simp [h2]
    rw [e, e2]
    have e3 : addAllTags tags (addAllTags tags s.tags) = addAllTags tags s.tags :=
      addAllTags_eq_of_subset _ _ (fun t ht => mem_addAllTags_self tags s.tags t ht)
    rw [e3]

/-- C6: `add_service_tags` is idempotent — a second call with the same
arguments leaves every service's tag set unchanged and returns the same
count, which is the number of matched services. -/
theorem add_service_tags_idempotent (sels : List ServiceSelector)
    (tags : List String) (st : List Service) :
    (add_service_tags sels tags (add_service_tags sels tags st).1).1 =
      (add_service_tags sels tags st).1 ∧
    (add_service_tags sels tags (add_service_tags sels tags st).1).2 =
      (add_service_tags sels tags st).2 ∧
    (add_service_tags sels tags st).2 = st.countP (fun s => matchesAny sels s) := by
  refine ⟨?_, ?_, rfl⟩
  · show (st.map (updTags sels tags)).map (updTags sels tags) =
      st.map (updTags sels tags)
    rw [List.map_map]
    exact List.map_congr_left (fun s _hs => updTags_idem sels tags s)
  · show (st.map (updTags sels tags)).countP (fun s => matchesAny sels s) =
      st.countP (fun s => matchesAny sels s)
    rw [List.countP_map]
    exact List.countP_congr
      (fun s _hs => by simp [matchesAny_updTags sels tags s])

theorem dispatchStep_never_no_value (sel : SimpleFeatureSelector)
    (st : WatchState) (op : WatchOp) :
    noValueEvents (dispatchStep sel Exactly.Never st op).2 = true := by
  cases op with
  | addFeature f =>
    simp only [dispatchStep]
    split <;> simp [noValueEvents, WatchEvent.isValue]
  | removeFeature i =>
    simp only [dispatchStep]
    split <;> simp [noValueEvents, WatchEvent.isValue]
  | push i v =>
    simp only [dispatchStep]
    split <;> simp [noValueEvents, WatchEvent.isValue]

theorem dispatchRun_never_no_value (sel : SimpleFeatureSelector)
    (st : WatchState) (ops : List WatchOp) :
    noValueEvents (dispatchRun sel Exactly.Never st ops).2 = true := by
  induction ops generalizing st with
  | nil => rfl
  | cons op ops ih =>
    show noValueEvents ((dispatchStep sel Exactly.Never st op).2 ++
      (dispatchRun sel Exactly.Never (dispatchStep sel Exactly.Never st op).1 ops).2) =
        true
    unfold noValueEvents
    rw [List.all_append, Bool.and_eq_true]
    exact ⟨dispatchStep_never_no_value sel st op, ih _⟩

/-- C7: a subscription entry with constraint `Never` never receives a `Value`
event over any operation sequence, while `Added` and `Removed` catalog events
are still delivered; with constraint `Always`, every pushed value for a
feature in the interest set yields exactly one `Value` event, and a push for
an unmatched feature yields none. -/
theorem watch_never_always (sel : SimpleFeatureSelector) (st : WatchState) :
    (∀ ops : List WatchOp,
       noValueEvents (dispatchRun sel Exactly.Never st ops).2 = true) ∧
    (∀ f : Feature, matchesFeature sel f = true →
       st.interest.contains f.id = false →
       (dispatchStep sel Exactly.Never st (WatchOp.addFeature f)).2 =
         [WatchEvent.added f.id]) ∧
    (∀ i : String, st.interest.contains i = true →
       (dispatchStep sel Exactly.Never st (WatchOp.removeFeature i)).2 =
         [WatchEvent.removed i]) ∧
    (∀ (i : String) (v : Value), st.interest.contains i = true →
       (dispatchStep sel Exactly.Always st (WatchOp.push i v)).2 =
         [WatchEvent.value i v]) ∧
    (∀ (i : String) (v : Value), st.interest.contains i = false →
       (dispatchStep sel Exactly.Always st (WatchOp.push i v)).2 = []) := by
  refine ⟨fun ops => dispatchRun_never_no_value sel st ops, ?_, ?_, ?_, ?_⟩
  · intro f hm hni
    have hni2 : f.id ∉ st.interest := fun hmem => by
      rw [(contains_true_iff st.interest f.id).mpr hmem] at hni
      cases hni
    simp [dispatchStep, hm, hni2]
  · intro i hi
    have hi2 : i ∈ st.interest := (contains_true_iff st.interest i).mp hi
    simp [dispatchStep, hi2]
  · intro i v hi
    have hi2 : i ∈ st.interest := (contains_true_iff st.interest i).mp hi
    simp [dispatchStep, hi2]
  · intro i v hi
    have hi2 : i ∉ st.interest := fun hmem => by
      rw [(contains_true_iff st.interest i).mpr hmem] at hi
      cases hi
    simp [dispatchStep, hi2]

/-- Witness for `watch_never_always`: a subscription interested in feature
`f1`, a matching catalog addition of `f2`, and a push on `f1`. -/
theorem watch_never_always_witness :
    noValueEvents (dispatchRun
      { id := Exactly.Always, tags := [], implements := Exactly.Always }
      Exactly.Never { interest := ["f1"] }
      [WatchOp.push "f1" (Value.mk 0 5)]).2 = true ∧
    matchesFeature { id := Exactly.Always, tags := [], implements := Exactly.Always }
      { id := "f2", tags := [], implements := "light" } = true ∧
    (WatchState.mk ["f1"]).interest.contains "f2" = false ∧
    (dispatchStep { id := Exactly.Always, tags := [], implements := Exactly.Always }
      Exactly.Never { interest := ["f1"] }
      (WatchOp.addFeature { id := "f2", tags := [], implements := "light" })).2 =
        [WatchEvent.added "f2"] ∧
    (WatchState.mk ["f1"]).interest.contains "f1" = true ∧
    (dispatchStep { id := Exactly.Always, tags := [], implements := Exactly.Always }
      Exactly.Always { interest := ["f1"] }
      (WatchOp.push "f1" (Value.mk 0 5))).2 =
        [WatchEvent.value "f1" (Value.mk 0 5)] := by
  have h := watch_never_always
    { id := Exactly.Always, tags := [], implements := Exactly.Always }
    { interest := ["f1"] }
  exact ⟨h.1 [WatchOp.push "f1" (Value.mk 0 5)], rfl, rfl,
    h.2.1 { id := "f2", tags := [], implements := "light" } rfl rfl, rfl,
    h.2.2.2.1 "f1" (Value.mk 0 5) rfl⟩

end Taxonomy
